import Mathlib

/-!
Verification of the Uniswap V3 price-reading example (`src/main.rs`).

The program is a linear pipeline:
1. read the `ALCHEMY_API_KEY` environment variable (abort if missing),
2. remote call `getPool(token0, token1, 3000)` on the factory,
3. remote call `slot0()` on the returned pool address,
4. decode `sqrtPriceX96` into an exact rational price and print a float.

We embed the arithmetic exactly: the `U256` little-endian byte dump and the
big-integer reconstruction from bytes, the exact rational division by `2^96`,
and the final `10^(18-6) / sqrt_price^2` computation, with the
division-by-zero panic of `BigRational` modelled as `none`.  The pipeline
(environment lookup and the two remote calls) is embedded as a function from
an environment of oracle answers to the list of network calls issued and the
final outcome.
-/

namespace UniswapV3Price

/-- `slot0.0.to_little_endian(&mut little_endian)`: dump a nonnegative
integer into `k` little-endian bytes (the source uses `k = 32` for `U256`). -/
def to_little_endian : Nat → Nat → List Nat
  | 0, _ => []
  | k + 1, n => (n % 256) :: to_little_endian k (n / 256)

/-- `BigInt::from_bytes_le(Sign::Plus, &little_endian)`: rebuild the integer
from little-endian bytes. -/
def from_bytes_le : List Nat → Nat
  | [] => 0
  | b :: bs => b + 256 * from_bytes_le bs

/-- `let sqrt_price = BigRational::from_integer(BigInt::from_bytes_le(Sign::Plus,
&little_endian)) / (BigRational::new(2.into(), 1.into()).pow(96));`
(src/main.rs lines 60-67): the exact rational square-root price. -/
def sqrt_price (v : Nat) : ℚ :=
  (from_bytes_le (to_little_endian 32 v) : ℚ) / 2 ^ 96

/-- `let price = BigRational::new(10.into(), 1.into()).pow(18 - 6)
/ sqrt_price.pow(2);` (src/main.rs line 73).  `BigRational` division panics
when the divisor is zero; the panic is modelled as `none`. -/
def price (v : Nat) : Option ℚ :=
  if sqrt_price v ^ 2 = 0 then none
  else some ((10 : ℚ) ^ (18 - 6) / sqrt_price v ^ 2)

/-- The two remote calls the program can issue, in the order the source
makes them. -/
inductive NetCall
  | getPool
  | slot0
  deriving DecidableEq, Repr

/-- Failure classes of the pipeline: missing configuration (`env::var`
error), a failed remote call (either of the two `await?`), and the
arithmetic panic on division by zero. -/
inductive RunError
  | configError
  | rpcError
  | arithError
  deriving DecidableEq, Repr

/-- The tuple returned by `slot0()` (uint160, int24, uint16, uint16, uint16,
uint8, bool). -/
structure Slot0 where
  sqrtPriceX96 : Nat
  tick : Int
  observationIndex : Nat
  observationCardinality : Nat
  observationCardinalityNext : Nat
  feeProtocol : Nat
  unlocked : Bool

/-- Oracle answers for the effects `main` performs: the environment
variable lookup and the two remote calls (addresses are 160-bit naturals;
`Except Unit _` is a remote call that may fail at transport level). -/
structure Env where
  alchemyApiKey : Option String
  getPoolResult : Except Unit Nat
  slot0Result : Except Unit Slot0

/-- The body of `main` (src/main.rs lines 26-78): environment lookup, then
`getPool`, then — unconditionally on whatever address came back — `slot0`,
then the price computation.  Returns the network calls issued, in order,
together with the outcome. -/
def runMain (env : Env) : List NetCall × Except RunError ℚ :=
  match env.alchemyApiKey with
  | none => ([], .error .configError)
  | some _ =>
    match env.getPoolResult with
    | .error _ => ([.getPool], .error .rpcError)
    | .ok _pool_address =>
      match env.slot0Result with
      | .error _ => ([.getPool, .slot0], .error .rpcError)
      | .ok s =>
        match price s.sqrtPriceX96 with
        | none => ([.getPool, .slot0], .error .arithError)
        | some q => ([.getPool, .slot0], .ok q)

/-- Spec-side encoder for the round-trip property (§8 of the spec):
`sqrt(price) * 2^96`, rounded down to an integer; equivalently
`⌊sqrt(p * 2^192)⌋`. -/
def encodeSqrtPriceX96 (p : ℚ) : Nat :=
  Nat.sqrt (Int.toNat ⌊p * 2 ^ 192⌋)

/-- `num`/`num-rational` conversion to `f64` (`ToPrimitive::to_f64` on
`BigRational`): the quotient of the two big integers each converted to
`f64`; a `BigInt` of magnitude at least `2^1024` converts to an infinity,
and the result is `None` exactly when the float quotient is NaN, which for
`numer/denom` happens when both are zero or both are infinite.  We model
just the success condition. -/
def to_f64 (q : ℚ) : Option Unit :=
  if (q.num = 0 ∧ q.den = 0) ∨ (2 ^ 1024 ≤ q.num.natAbs ∧ 2 ^ 1024 ≤ q.den)
  then none else some ()

/-- `ToPrimitive::to_f32` on `BigRational` is `to_f64` followed by an
`f64 → f32` cast, which is total (overflow gives an infinity, not a
failure): it is `None` exactly when `to_f64` is. -/
def to_f32 (q : ℚ) : Option Unit :=
  to_f64 q

/-! ### Helper lemmas -/

theorem from_bytes_le_to_little_endian (k n : Nat) :
    from_bytes_le (to_little_endian k n) = n % 256 ^ k := by
  induction k generalizing n with
  | zero => simp [to_little_endian, from_bytes_le, Nat.mod_one]
  | succ k ih =>
    simp only [to_little_endian, from_bytes_le, ih]
    rw [pow_succ', Nat.mod_mul]

theorem sqrt_price_eq (v : Nat) (h : v < 2 ^ 160) :
    sqrt_price v = (v : ℚ) / 2 ^ 96 := by
  have hle : (2 : ℕ) ^ 160 ≤ 256 ^ 32 := by norm_num
  have hlt : v < 256 ^ 32 := lt_of_lt_of_le h hle
  rw [sqrt_price, from_bytes_le_to_little_endian, Nat.mod_eq_of_lt hlt]

theorem sqrt_price_sq_ne_zero (v : Nat) (h0 : v ≠ 0)
    (hs : sqrt_price v = (v : ℚ) / 2 ^ 96) :
    sqrt_price v ^ 2 ≠ 0 := by
  have hv : (v : ℚ) ≠ 0 := Nat.cast_ne_zero.mpr h0
  have h96 : ((2 : ℚ) ^ 96) ≠ 0 := by norm_num
  rw [hs]
  exact pow_ne_zero 2 (div_ne_zero hv h96)

theorem price_unfold (v : Nat) (hne : sqrt_price v ^ 2 ≠ 0)
    (hs : sqrt_price v = (v : ℚ) / 2 ^ 96) :
    price v = some ((10 : ℚ) ^ (18 - 6) / ((v : ℚ) / 2 ^ 96) ^ 2) := by
  rw [price, if_neg hne, hs]

theorem price_ratio (v : Nat) :
    some ((10 : ℚ) ^ (18 - 6) / ((v : ℚ) / 2 ^ 96) ^ 2)
      = some ((10 : ℚ) ^ 12 * 2 ^ 192 / (v : ℚ) ^ 2) := by
  congr 1
  rw [div_pow, div_div_eq_mul_div]
  norm_num

theorem price_eq (v : Nat) (h0 : v ≠ 0) (h : v < 2 ^ 160) :
    price v = some ((10 : ℚ) ^ 12 * 2 ^ 192 / (v : ℚ) ^ 2) := by
  have hs : sqrt_price v = (v : ℚ) / 2 ^ 96 := sqrt_price_eq v h
  rw [price_unfold v (sqrt_price_sq_ne_zero v h0 hs) hs]
  exact price_ratio v

theorem sqrt_price_zero : sqrt_price 0 = 0 := by
  rw [sqrt_price, from_bytes_le_to_little_endian]
  norm_num

theorem price_pow96 : price (2 ^ 96) = some (10 ^ 12) := by
  rw [price_eq (2 ^ 96) (by norm_num) (by norm_num)]
  congr 1
  push_cast
  norm_num

theorem encodeSqrtPriceX96_natCast (n : ℕ) :
    encodeSqrtPriceX96 (n : ℚ) = Nat.sqrt (n * 2 ^ 192) := by
  unfold encodeSqrtPriceX96
  congr 1
  have h : ((n : ℚ)) * 2 ^ 192 = ((n * 2 ^ 192 : ℕ) : ℚ) := by push_cast; ring
  rw [h, Int.floor_natCast, Int.toNat_natCast]

/-! ### Claim theorems -/

/-- C1 (counterexample): the claim that the decoded price equals
`decoded_sqrt_price ^ 2 * 10 ^ (decimalsA - decimalsB)` is false at
`v = 2 ^ 97`: there `decoded_sqrt_price = 2`, so the claimed value is
`4 * 10 ^ 12`, but the program computes `10 ^ 12 / 4`. -/
theorem price_square_formula_false :
    price (2 ^ 97)
      ≠ some ((((2 ^ 97 : ℕ) : ℚ) / 2 ^ 96) ^ 2 * 10 ^ (18 - 6)) := by
  rw [price_eq (2 ^ 97) (by norm_num) (by norm_num)]
  simp only [Ne, Option.some.injEq]
  push_cast
  norm_num

/-- C1 (amended): for every nonzero 160-bit `sqrtPriceX96` value `v`, the
decoded price the program computes equals
`10 ^ (decimalsA - decimalsB) / decoded_sqrt_price ^ 2` with
`decoded_sqrt_price = v / 2 ^ 96` — the decimal factor divided by the
squared sqrt-price, not multiplied by it. -/
theorem price_decimals_div_square (v : ℕ) (h0 : v ≠ 0) (h : v < 2 ^ 160) :
    price v = some ((10 : ℚ) ^ (18 - 6) / ((v : ℚ) / 2 ^ 96) ^ 2) := by
  have hs : sqrt_price v = (v : ℚ) / 2 ^ 96 := sqrt_price_eq v h
  exact price_unfold v (sqrt_price_sq_ne_zero v h0 hs) hs

/-- C1 witness: the amended formula evaluated at `v = 2 ^ 97`. -/
theorem price_decimals_div_square_witness :
    price (2 ^ 97)
      = some ((10 : ℚ) ^ (18 - 6) / (((2 ^ 97 : ℕ) : ℚ) / 2 ^ 96) ^ 2) :=
  price_decimals_div_square (2 ^ 97) (by norm_num) (by norm_num)

/-- C3: with `sqrtPriceX96 = 0` (uninitialized pool) the price computation
hits the `BigRational` division-by-zero panic — modelled as `none` — and in
particular never returns any rational (so neither `0` nor an infinite
stand-in). -/
theorem price_zero_fails :
    price 0 = none ∧ ∀ q : ℚ, price 0 ≠ some q := by
  have h : price 0 = none := by
    rw [price, if_pos]
    rw [sqrt_price_zero]
    norm_num
  exact ⟨h, fun q hq => by rw [h] at hq; exact Option.noConfusion hq⟩

/-- C4: at `sqrtPriceX96 = 79228162514264337593543950336 = 2 ^ 96`
(`sqrtPrice = 1`), with the hardcoded decimals 18 and 6, the decoded price
is exactly `10 ^ 12`. -/
theorem price_at_two_pow_96 :
    price 79228162514264337593543950336 = some (10 ^ 12) := by
  have h : (79228162514264337593543950336 : ℕ) = 2 ^ 96 := by norm_num
  rw [h]
  exact price_pow96

/-- C5: for every 160-bit `v`, the intermediate `sqrt_price` the program
computes (byte dump, big-integer reconstruction, exact rational division)
is exactly `v / 2 ^ 96`, with no rounding. -/
theorem sqrt_price_exact (v : ℕ) (h : v < 2 ^ 160) :
    sqrt_price v = (v : ℚ) / 2 ^ 96 :=
  sqrt_price_eq v h

/-- C5 witness: the exact sqrt-price at `v = 3`. -/
theorem sqrt_price_exact_witness :
    sqrt_price 3 = ((3 : ℕ) : ℚ) / 2 ^ 96 :=
  sqrt_price_exact 3 (by norm_num)

/-- C7: the maximum 160-bit input `2 ^ 160 - 1` decodes without failure:
the byte reinterpretation and division give exactly `(2 ^ 160 - 1) / 2 ^ 96`,
and squaring plus decimal adjustment produce the exact rational
`10 ^ 12 * 2 ^ 192 / (2 ^ 160 - 1) ^ 2` (arbitrary-precision arithmetic —
no overflow anywhere on the path). -/
theorem price_at_max_input :
    sqrt_price (2 ^ 160 - 1) = ((2 ^ 160 - 1 : ℕ) : ℚ) / 2 ^ 96 ∧
    price (2 ^ 160 - 1)
      = some ((10 : ℚ) ^ 12 * 2 ^ 192 / ((2 ^ 160 - 1 : ℕ) : ℚ) ^ 2) :=
  ⟨sqrt_price_eq (2 ^ 160 - 1) (by norm_num),
   price_eq (2 ^ 160 - 1) (by norm_num) (by norm_num)⟩

/-- C2 (code behaviour): the program performs no check on the address
returned by `getPool`.  Whenever the configuration is present and `getPool`
succeeds with the zero address, the `slot0` remote call is still issued —
contradicting the claim that the pipeline aborts without querying `slot0`. -/
theorem zero_pool_address_still_calls_slot0 (env : Env) (k : String)
    (hk : env.alchemyApiKey = some k) (hp : env.getPoolResult = Except.ok 0) :
    NetCall.slot0 ∈ (runMain env).1 := by
  unfold runMain
  rw [hk, hp]
  cases hs0 : env.slot0Result with
  | error e => simp
  | ok s0 =>
    cases hq : price s0.sqrtPriceX96 <;> simp [hq]

/-- C2 witness: a run where `getPool` answers with the zero address and the
`slot0` call is issued (and happens to fail at transport level). -/
theorem zero_pool_address_still_calls_slot0_witness :
    NetCall.slot0
      ∈ (runMain ⟨some "key", Except.ok 0, Except.error ()⟩).1 :=
  zero_pool_address_still_calls_slot0
    ⟨some "key", Except.ok 0, Except.error ()⟩ "key" rfl rfl

/-- C6: when the `ALCHEMY_API_KEY` environment variable is absent the run
aborts with a configuration error and the list of network calls issued is
empty — no pool resolution, no state fetch. -/
theorem missing_api_key_aborts_before_network (env : Env)
    (h : env.alchemyApiKey = none) :
    runMain env = ([], Except.error RunError.configError) := by
  unfold runMain
  rw [h]

/-- C6 witness: a concrete run with the environment variable absent. -/
theorem missing_api_key_aborts_before_network_witness :
    runMain ⟨none, Except.ok 0, Except.error ()⟩
      = ([], Except.error RunError.configError) :=
  missing_api_key_aborts_before_network ⟨none, Except.ok 0, Except.error ()⟩ rfl

/-- C9: for every nonzero 160-bit `v`, the exact rational price is
`10 ^ 12 * 2 ^ 192 / v ^ 2`, and this closed form is strictly decreasing
in `v`. -/
theorem price_closed_form_strict_anti :
    (∀ v : ℕ, 0 < v → v < 2 ^ 160 →
        price v = some ((10 : ℚ) ^ 12 * 2 ^ 192 / (v : ℚ) ^ 2)) ∧
    (∀ v₁ v₂ : ℕ, 0 < v₁ → v₁ < v₂ → v₂ < 2 ^ 160 →
        ∀ q₁ q₂ : ℚ, price v₁ = some q₁ → price v₂ = some q₂ → q₂ < q₁) := by
  constructor
  · intro v h0 h
    exact price_eq v (Nat.pos_iff_ne_zero.mp h0) h
  · intro v₁ v₂ h₁ h₁₂ h₂ q₁ q₂ hq₁ hq₂
    rw [price_eq v₁ (Nat.pos_iff_ne_zero.mp h₁) (lt_trans h₁₂ h₂),
      Option.some.injEq] at hq₁
    rw [price_eq v₂ (Nat.pos_iff_ne_zero.mp (lt_trans h₁ h₁₂)) h₂,
      Option.some.injEq] at hq₂
    rw [← hq₁, ← hq₂]
    have hv₁ : (0 : ℚ) < (v₁ : ℚ) := by exact_mod_cast h₁
    have hlt : ((v₁ : ℚ)) ^ 2 < ((v₂ : ℚ)) ^ 2 := by
      have hc : ((v₁ : ℚ)) < ((v₂ : ℚ)) := by exact_mod_cast h₁₂
      exact pow_lt_pow_left₀ hc (le_of_lt hv₁) (by norm_num)
    exact div_lt_div_of_pos_left (by norm_num) (by positivity) hlt

/-- C9 witness: the closed form at `v = 2 ^ 96` and strict decrease from
`v = 2 ^ 96` to `v = 2 ^ 97`. -/
theorem price_closed_form_strict_anti_witness :
    price (2 ^ 96) = some ((10 : ℚ) ^ 12 * 2 ^ 192 / ((2 ^ 96 : ℕ) : ℚ) ^ 2) ∧
    ((10 : ℚ) ^ 12 * 2 ^ 192 / ((2 ^ 97 : ℕ) : ℚ) ^ 2)
      < ((10 : ℚ) ^ 12 * 2 ^ 192 / ((2 ^ 96 : ℕ) : ℚ) ^ 2) :=
  ⟨price_closed_form_strict_anti.1 (2 ^ 96) (by norm_num) (by norm_num),
   price_closed_form_strict_anti.2 (2 ^ 96) (2 ^ 97) (by norm_num) (by norm_num)
     (by norm_num) _ _
     (price_eq (2 ^ 96) (by norm_num) (by norm_num))
     (price_eq (2 ^ 97) (by norm_num) (by norm_num))⟩

theorem price_num_natAbs_lt (v : ℕ) (h0 : v ≠ 0) :
    ((10 : ℚ) ^ 12 * 2 ^ 192 / (v : ℚ) ^ 2).num.natAbs < 2 ^ 1024 := by
  have hb : ((v ^ 2 : ℕ) : ℤ) ≠ 0 := by
    exact_mod_cast pow_ne_zero 2 h0
  have hcast : (10 : ℚ) ^ 12 * 2 ^ 192 / (v : ℚ) ^ 2
      = Rat.divInt ((10 ^ 12 * 2 ^ 192 : ℕ) : ℤ) ((v ^ 2 : ℕ) : ℤ) := by
    rw [Rat.divInt_eq_div]
    push_cast
    ring
  have hnum := Rat.num_dvd ((10 ^ 12 * 2 ^ 192 : ℕ) : ℤ) hb
  rw [← hcast] at hnum
  have habs : ((10 : ℚ) ^ 12 * 2 ^ 192 / (v : ℚ) ^ 2).num.natAbs
      ∣ 10 ^ 12 * 2 ^ 192 := by
    have h1 := Int.natAbs_dvd_natAbs.mpr hnum
    simpa using h1
  calc ((10 : ℚ) ^ 12 * 2 ^ 192 / (v : ℚ) ^ 2).num.natAbs
      ≤ 10 ^ 12 * 2 ^ 192 := Nat.le_of_dvd (by norm_num) habs
    _ < 2 ^ 1024 := by norm_num

/-- C10: for every nonzero 160-bit `v`, the float conversion of the exact
rational price succeeds: `to_f32` (hence the final `unwrap`) never fails,
because the reduced numerator is far below the `f64` overflow threshold and
the denominator is never zero. -/
theorem price_to_f32_never_fails (v : ℕ) (h0 : v ≠ 0) (h : v < 2 ^ 160)
    (q : ℚ) (hq : price v = some q) :
    to_f32 q = some () := by
  rw [price_eq v h0 h, Option.some.injEq] at hq
  rw [← hq]
  unfold to_f32 to_f64
  rw [if_neg]
  rintro (⟨h1, h2⟩ | ⟨h1, h2⟩)
  · exact absurd h2 (Rat.den_pos _).ne'
  · exact absurd h1 (not_le.mpr (price_num_natAbs_lt v h0))

/-- C10 witness: the conversion succeeds at `v = 2 ^ 96`, `q = 10 ^ 12`. -/
theorem price_to_f32_never_fails_witness :
    to_f32 (10 ^ 12) = some () :=
  price_to_f32_never_fails (2 ^ 96) (by norm_num) (by norm_num)
    (10 ^ 12) price_pow96

/-- C8 (counterexample): encoding the price `p = 4 * 10 ^ 12` as
`sqrtPriceX96 = sqrt(p) * 2 ^ 96` is exact — the truncation introduces no
rounding error at all, since `(s / 2 ^ 96) ^ 2 = p` exactly — yet decoding
returns `1 / 4`, not `p`: the decoder divides by the squared sqrt-price
instead of multiplying. -/
theorem roundtrip_as_stated_false :
    encodeSqrtPriceX96 ((4 * 10 ^ 12 : ℕ) : ℚ) = 2000000 * 2 ^ 96 ∧
    ((((2000000 * 2 ^ 96 : ℕ) : ℚ)) / 2 ^ 96) ^ 2 = ((4 * 10 ^ 12 : ℕ) : ℚ) ∧
    price (2000000 * 2 ^ 96) = some (1 / 4) ∧
    (1 / 4 : ℚ) ≠ ((4 * 10 ^ 12 : ℕ) : ℚ) := by
  refine ⟨?_, ?_, ?_, ?_⟩
  · rw [encodeSqrtPriceX96_natCast]
    have h : (4 * 10 ^ 12 * 2 ^ 192 : ℕ)
        = (2000000 * 2 ^ 96) * (2000000 * 2 ^ 96) := by norm_num
    rw [h, Nat.sqrt_eq]
  · push_cast
    norm_num
  · rw [price_eq (2000000 * 2 ^ 96) (by norm_num) (by norm_num)]
    congr 1
    push_cast
    norm_num
  · push_cast
    norm_num

/-- C8 (amended): encoding a price `p` as `sqrtPriceX96 = sqrt(p) * 2 ^ 96`
rounded down to an integer `s` and decoding reproduces the *reciprocal*
form `10 ^ (18 - 6) / p` — not `p` itself — within the relative rounding
error `((s + 1) / s) ^ 2` introduced by the integer truncation. -/
theorem roundtrip_reciprocal (p : ℚ) (s : ℕ) (hp : 0 < p)
    (hs : s = encodeSqrtPriceX96 p) (h1 : 1 ≤ s) (h2 : s < 2 ^ 160) :
    ∃ q : ℚ, price s = some q ∧ (10 : ℚ) ^ (18 - 6) / p ≤ q ∧
      q < ((10 : ℚ) ^ (18 - 6) / p) * ((s + 1 : ℚ) / s) ^ 2 := by
  have hs0 : s ≠ 0 := Nat.one_le_iff_ne_zero.mp h1
  have hsq : (0 : ℚ) < (s : ℚ) := by exact_mod_cast Nat.pos_of_ne_zero hs0
  have hs2 : (0 : ℚ) < ((s : ℚ)) ^ 2 := by positivity
  -- floor and square-root bounds
  have hfl0 : 0 ≤ ⌊p * 2 ^ 192⌋ := Int.floor_nonneg.mpr (by positivity)
  have hmnat : ((Int.toNat ⌊p * 2 ^ 192⌋ : ℕ) : ℚ)
      = ((⌊p * 2 ^ 192⌋ : ℤ) : ℚ) := by
    exact_mod_cast congrArg (fun z : ℤ => (z : ℚ)) (Int.toNat_of_nonneg hfl0)
  have hmle : ((Int.toNat ⌊p * 2 ^ 192⌋ : ℕ) : ℚ) ≤ p * 2 ^ 192 := by
    rw [hmnat]
    exact Int.floor_le _
  have hmlt : p * 2 ^ 192 < ((Int.toNat ⌊p * 2 ^ 192⌋ : ℕ) : ℚ) + 1 := by
    rw [hmnat]
    exact Int.lt_floor_add_one _
  have hssqrt : s = Nat.sqrt (Int.toNat ⌊p * 2 ^ 192⌋) := hs
  have hle : ((s : ℚ)) ^ 2 ≤ p * 2 ^ 192 := by
    refine le_trans ?_ hmle
    have h := Nat.sqrt_le' (Int.toNat ⌊p * 2 ^ 192⌋)
    rw [← hssqrt] at h
    exact_mod_cast h
  have hlt : p * 2 ^ 192 < ((s : ℚ) + 1) ^ 2 := by
    refine lt_of_lt_of_le hmlt ?_
    have h := Nat.lt_succ_sqrt' (Int.toNat ⌊p * 2 ^ 192⌋)
    rw [← hssqrt] at h
    have h' : Int.toNat ⌊p * 2 ^ 192⌋ + 1 ≤ (s + 1) ^ 2 := h
    calc ((Int.toNat ⌊p * 2 ^ 192⌋ : ℕ) : ℚ) + 1
        = (((Int.toNat ⌊p * 2 ^ 192⌋ + 1 : ℕ)) : ℚ) := by push_cast; ring
      _ ≤ (((s + 1) ^ 2 : ℕ) : ℚ) := by exact_mod_cast h'
      _ = ((s : ℚ) + 1) ^ 2 := by push_cast; ring
  refine ⟨(10 : ℚ) ^ 12 * 2 ^ 192 / ((s : ℚ)) ^ 2, price_eq s hs0 h2, ?_, ?_⟩
  · rw [div_le_div_iff₀ hp hs2]
    have h10 : ((10 : ℚ)) ^ (18 - 6) = 10 ^ 12 := by norm_num
    rw [h10]
    calc (10 : ℚ) ^ 12 * ((s : ℚ)) ^ 2
        ≤ 10 ^ 12 * (p * 2 ^ 192) :=
          mul_le_mul_of_nonneg_left hle (by positivity)
      _ = 10 ^ 12 * 2 ^ 192 * p := by ring
  · have hr : ((10 : ℚ) ^ (18 - 6) / p) * ((s + 1 : ℚ) / s) ^ 2
        = (10 : ℚ) ^ 12 * ((s : ℚ) + 1) ^ 2 / (p * ((s : ℚ)) ^ 2) := by
      rw [div_pow, div_mul_div_comm]
    rw [hr, div_lt_div_iff₀ hs2 (by positivity)]
    have hmul := mul_lt_mul_of_pos_left hlt
      (show (0 : ℚ) < 10 ^ 12 * ((s : ℚ)) ^ 2 by positivity)
    calc (10 : ℚ) ^ 12 * 2 ^ 192 * (p * ((s : ℚ)) ^ 2)
        = (10 ^ 12 * ((s : ℚ)) ^ 2) * (p * 2 ^ 192) := by ring
      _ < (10 ^ 12 * ((s : ℚ)) ^ 2) * (((s : ℚ)) + 1) ^ 2 := hmul
      _ = 10 ^ 12 * (((s : ℚ)) + 1) ^ 2 * ((s : ℚ)) ^ 2 := by ring

/-- C8 witness: the amended round trip at `p = 10 ^ 12`, where the encoding
is exactly `s = 10 ^ 6 * 2 ^ 96` and the decoded price brackets
`10 ^ 12 / p = 1`. -/
theorem roundtrip_reciprocal_witness :
    ∃ q : ℚ, price (1000000 * 2 ^ 96) = some q ∧
      (10 : ℚ) ^ (18 - 6) / ((10 ^ 12 : ℕ) : ℚ) ≤ q ∧
      q < ((10 : ℚ) ^ (18 - 6) / ((10 ^ 12 : ℕ) : ℚ))
        * ((((1000000 * 2 ^ 96 : ℕ) : ℚ) + 1) / ((1000000 * 2 ^ 96 : ℕ) : ℚ)) ^ 2 := by
  have hs : (1000000 * 2 ^ 96 : ℕ) = encodeSqrtPriceX96 ((10 ^ 12 : ℕ) : ℚ) := by
    rw [encodeSqrtPriceX96_natCast]
    have h : (10 ^ 12 * 2 ^ 192 : ℕ)
        = (1000000 * 2 ^ 96) * (1000000 * 2 ^ 96) := by norm_num
    rw [h, Nat.sqrt_eq]
  exact roundtrip_reciprocal ((10 ^ 12 : ℕ) : ℚ) (1000000 * 2 ^ 96)
    (by norm_num) hs (by norm_num) (by norm_num)

end UniswapV3Price
